import Mathlib

/-!
Verification of the real-estate listing pipeline and its query-time ML
helpers (data_cleaner.py, extractors.py, app/data/loader.py, ml.py).

Modelling conventions:
* Python/NumPy floats are modelled as exact rationals (`ℚ`); `NaN` cells are
  `Option ℚ` with `none` standing for a missing value.  Comparisons against
  `none` are `False`, matching NumPy's `NaN < x = False` semantics.
* Python `hash`, the `\b\w{4,}\b` word tokenizer and the haversine distance
  (transcendental) are opaque parameters of the functions that use them; all
  claims quantify over them.
* The regression model, the fitted scaler and `np.expm1` are consumed by the
  source only as the composite `expm1(model.predict(scaler.transform(x))[0])`;
  that composite is the opaque parameter `priceModel` below.  `expm1` is a
  strictly monotone bijection onto `(-1, ∞)`, so every rational value used in
  a witness or counterexample is a reachable model output.
* Euclidean distances are compared through their squares (`sqrt` is strictly
  monotone, so `argsort` is unchanged); the sort is stable, as the spec
  prescribes for tie-breaking.
-/

attribute [local semireducible] Rat.ofScientific Rat.mul Rat.inv Rat.add Rat.sub

/-! ### Rational arithmetic helpers (computable, kernel-reducible) -/

/-- Floor of a rational, computed with `Int.fdiv` so that `decide` can
evaluate it (the `Int.floor` instance on `ℚ` does not kernel-reduce). -/
def ratFloor (q : ℚ) : ℤ := Int.fdiv q.num q.den

/-- Python `int(x)` on a float: truncation toward zero. -/
def pyInt (q : ℚ) : ℤ := if 0 ≤ q then ratFloor q else -(ratFloor (-q))

/-- Python 3 `round(x)` (no digits): round half to even. -/
def roundHalfEven (q : ℚ) : ℤ :=
  if q - ratFloor q < 1/2 then ratFloor q
  else if 1/2 < q - ratFloor q then ratFloor q + 1
  else if ratFloor q % 2 = 0 then ratFloor q else ratFloor q + 1

/-- Python `round(x, 2)`: round half to even at two decimal places. -/
def pyRound2 (q : ℚ) : ℚ := (roundHalfEven (q * 100) : ℚ) / 100

/-- `pandas` median of the non-missing values of a column: sort ascending,
take the middle element, or the mean of the two middle elements when the
count is even; `none` when the column holds no value (median of an empty
series is `NaN`). -/
def medianQ (xs : List ℚ) : Option ℚ :=
  let s := List.insertionSort (· ≤ ·) xs
  let n := s.length
  if n = 0 then none
  else if n % 2 = 1 then some (s.getD (n / 2) 0)
  else some ((s.getD (n / 2 - 1) 0 + s.getD (n / 2) 0) / 2)

/-! ### extractors.py — `PriceExtractor.extract`

The two regular expressions of `PriceExtractor.extract` are implemented
directly over `List Char` with Python `re` semantics (leftmost match, greedy
quantifiers with backtracking, non-overlapping `findall`).  `\d` and `\s` are
modelled by their ASCII subsets, which cover the listing corpus. -/

/-- Python `\d` (ASCII subset). -/
def isDigitChar (c : Char) : Bool := c.isDigit

/-- Python `\s` (ASCII subset: space, tab, newline, CR, vertical tab, form feed). -/
def isSpaceChar (c : Char) : Bool :=
  c == ' ' || c == '\t' || c == '\n' || c == '\r' || c == '\x0b' || c == '\x0c'

/-- The character class `[\s,]`. -/
def isSpaceComma (c : Char) : Bool := isSpaceChar c || c == ','

/-- Consume the alternation `(?:€|euro)`, Python trying `€` first. -/
def stripEuro : List Char → Option (List Char)
  | '€' :: rest => some rest
  | 'e' :: 'u' :: 'r' :: 'o' :: rest => some rest
  | _ => none

/-- Consume the alternation `(?:/|per)`. -/
def stripSlashPer : List Char → Option (List Char)
  | '/' :: rest => some rest
  | 'p' :: 'e' :: 'r' :: rest => some rest
  | _ => none

/-- Test `m(?:2|²)` at the current position. -/
def matchM2 : List Char → Bool
  | 'm' :: '2' :: _ => true
  | 'm' :: '²' :: _ => true
  | _ => false

/-- All ways a greedy `p*` can split the input, longest taken run first —
the order in which a backtracking regex engine tries them. -/
def greedySplits (p : Char → Bool) (s : List Char) : List (List Char × List Char) :=
  let run := s.takeWhile p
  let rest := s.dropWhile p
  ((List.range (run.length + 1)).reverse).map fun k => (run.take k, run.drop k ++ rest)

/-- Try `(\d+[\s,]*\d*)\s*(?:€|euro)\s*(?:/|per)\s*m(?:2|²)` anchored at the
head of `s`; returns the captured group.  The three quantified pieces of the
group backtrack (rightmost first); the tail of the pattern is deterministic
because `\s*` is never followed by a space-matching token. -/
def matchPerSqmAt (s : List Char) : Option (List Char) :=
  (greedySplits isDigitChar s).findSome? fun (d1, r1) =>
    if d1.isEmpty then none else
    (greedySplits isSpaceComma r1).findSome? fun (m1, r2) =>
      (greedySplits isDigitChar r2).findSome? fun (d2, r3) =>
        match stripEuro (r3.dropWhile isSpaceChar) with
        | none => none
        | some r4 =>
          match stripSlashPer (r4.dropWhile isSpaceChar) with
          | none => none
          | some r6 =>
            if matchM2 (r6.dropWhile isSpaceChar) then some (d1 ++ m1 ++ d2)
            else none

/-- `re.search` for the per-m² pattern: leftmost matching position wins. -/
def perSqmSearch : List Char → Option (List Char)
  | [] => none
  | c :: cs =>
    match matchPerSqmAt (c :: cs) with
    | some g => some g
    | none => perSqmSearch cs

/-- Try `(?:€|euro)\s*(\d+[\s,]*\d*)` anchored at the head of `s`; returns
the captured group and the rest of the input after the match (the pattern is
deterministic: every quantifier is greedy and its follower cannot overlap). -/
def matchTotalAt (s : List Char) : Option (List Char × List Char) :=
  match stripEuro s with
  | none => none
  | some s1 =>
    let s2 := s1.dropWhile isSpaceChar
    let d1 := s2.takeWhile isDigitChar
    if d1.isEmpty then none else
    let s3 := s2.dropWhile isDigitChar
    let m1 := s3.takeWhile isSpaceComma
    let s4 := s3.dropWhile isSpaceComma
    let d2 := s4.takeWhile isDigitChar
    let s5 := s4.dropWhile isDigitChar
    some (d1 ++ m1 ++ d2, s5)

/-- `re.findall` scan for the total-price pattern: walk left to right,
emitting non-overlapping matches.  `fuel` bounds the recursion; every step
consumes at least one character, so `length + 1` fuel is exact. -/
def findallTotalAux : ℕ → List Char → List (List Char)
  | 0, _ => []
  | _, [] => []
  | fuel + 1, c :: cs =>
    match matchTotalAt (c :: cs) with
    | some (g, rest) => g :: findallTotalAux fuel rest
    | none => findallTotalAux fuel cs

def findallTotal (s : List Char) : List (List Char) :=
  findallTotalAux (s.length + 1) s

/-- `group.replace(' ', '').replace(',', '.')`. -/
def cleanNum (s : List Char) : List Char :=
  (s.filter (fun c => c ≠ ' ')).map (fun c => if c = ',' then '.' else c)

def natOfDigits (ds : List Char) : ℕ :=
  ds.foldl (fun a c => 10 * a + (c.toNat - '0'.toNat)) 0

/-- Python `float(str)`: strip surrounding whitespace, then accept
`digits`, `digits.digits`, `.digits` or `digits.`; anything else raises
`ValueError`, modelled as `none`.  (Signs and exponents never occur here:
the input is a regex group of digits, spaces and commas after `cleanNum`.) -/
def pyFloat? (s : List Char) : Option ℚ :=
  let t := ((s.dropWhile isSpaceChar).reverse.dropWhile isSpaceChar).reverse
  let ip := t.takeWhile (fun c => c ≠ '.')
  if ¬ ip.all isDigitChar then none
  else
    match t.drop ip.length with
    | [] => if ip.isEmpty then none else some (natOfDigits ip)
    | '.' :: fp =>
      if ¬ fp.all isDigitChar then none
      else if ip.isEmpty && fp.isEmpty then none
      else some ((natOfDigits ip : ℚ) + (natOfDigits fp : ℚ) / (10 ^ fp.length : ℚ))
    | _ => none

/-- Python `str.lower()` (ASCII subset) applied to the raw description. -/
def pyLower (s : String) : List Char := s.toList.map Char.toLower

/-- The `else` branch of `PriceExtractor.extract`: collect every
total-price match, parse the last one, reject totals ≤ 100. -/
def totalBranch (s : List Char) : Option ℚ × Option String :=
  match (findallTotal s).getLast? with
  | none => (none, none)
  | some g =>
    match pyFloat? (cleanNum g) with
    | none => (none, none)
    | some v => if v > 100 then (some v, some "total") else (none, none)

/-- `PriceExtractor.extract`: `None` for a missing description; otherwise
lower-case the text, try the per-m² rate pattern first (an unparseable
capture falls through, the `except: pass`), else take the last total-price
match. -/
def PriceExtractor.extract (text : Option String) : Option ℚ × Option String :=
  match text with
  | none => (none, none)
  | some t =>
    let s := pyLower t
    match perSqmSearch s with
    | some g =>
      match pyFloat? (cleanNum g) with
      | some v => (some v, some "per_sqm")
      | none => totalBranch s
    | none => totalBranch s

/-! ### data_cleaner.py — `DataCleaner`

A frame is the list of rows paired with their pandas index labels (filters
keep labels, as in pandas).  Cells hold `Option ℚ` (`none` = `NaN`).  The
`AreaExtractor`, Python's seed-randomised `hash` and the `\b\w{4,}\b` word
tokenizer are opaque parameters; every claim quantifies over them. -/

structure CRow where
  price_eur : Option ℚ
  area_sqm : Option ℚ
  bedrooms : Option ℚ
  lat : Option ℚ
  lng : Option ℚ
  description : Option String
deriving DecidableEq

abbrev CFrame := List (ℕ × CRow)

/-- `DataCleaner.check_impossible_values`: each sub-filter is applied only
when some row violates it (the `if (...).any()` guards); a pandas filter such
as `df[df['price_eur'] > 0]` also drops `NaN` cells, since `NaN > 0` is
`False`.  (The `bedrooms` column is always present in this pipeline.) -/
def check_impossible_values (df : CFrame) : CFrame :=
  let pLE : ℕ × CRow → Bool := fun ir => match ir.2.price_eur with | some p => decide (p ≤ 0) | none => false
  let pGT : ℕ × CRow → Bool := fun ir => match ir.2.price_eur with | some p => decide (0 < p) | none => false
  let aLE : ℕ × CRow → Bool := fun ir => match ir.2.area_sqm with | some a => decide (a ≤ 0) | none => false
  let aGT : ℕ × CRow → Bool := fun ir => match ir.2.area_sqm with | some a => decide (0 < a) | none => false
  let bLT : ℕ × CRow → Bool := fun ir => match ir.2.bedrooms with | some b => decide (b < 0) | none => false
  let bGE : ℕ × CRow → Bool := fun ir => match ir.2.bedrooms with | some b => decide (0 ≤ b) | none => false
  let d1 := if df.any pLE then df.filter pGT else df
  let d2 := if d1.any aLE then d1.filter aGT else d1
  if d2.any bLT then d2.filter bGE else d2

/-- `DataCleaner.filter_location` with the default Tirana bounding box. -/
def filter_location (df : CFrame) : CFrame :=
  df.filter fun (_, r) =>
    match r.lat, r.lng with
    | some la, some lo =>
      decide (4125/100 ≤ la ∧ la ≤ 4145/100 ∧ 1965/100 ≤ lo ∧ lo ≤ 20)
    | _, _ => false

/-- `DataCleaner.extract_areas`: rows with a missing or non-positive area get
the extractor's value when it is truthy (`if area:`).  `areaEx` is the opaque
`AreaExtractor.extract_best(description)[0]`. -/
def extract_areas (areaEx : Option String → Option ℚ) (df : CFrame) : CFrame :=
  df.map fun (i, r) =>
    if (match r.area_sqm with | none => true | some a => decide (a ≤ 0)) then
      match areaEx r.description with
      | some a => if a ≠ 0 then (i, { r with area_sqm := some a }) else (i, r)
      | none => (i, r)
    else (i, r)

/-- `DataCleaner.extract_prices`: overwrite the structured price with
`rate × area` when the description carries a per-m² rate that disagrees with
it by more than 20%. -/
def extract_prices (df : CFrame) : CFrame :=
  df.map fun (i, r) =>
    match PriceExtractor.extract r.description, r.area_sqm, r.price_eur with
    | (some pv, some pt), some a, some old =>
      if pt = "per_sqm" ∧ pv ≠ 0 ∧ 0 < a ∧ 0 < old ∧ |pv * a - old| / old > 1/5
      then (i, { r with price_eur := some (pv * a) })
      else (i, r)
    | _, _, _ => (i, r)

/-- Python `str.lower()` as a `String → String` map. -/
def lowerStr (s : String) : String := String.mk (pyLower s)

/-- The `\b\w{4,}\b` word set of a description (`words` is the opaque
tokenizer).  `str(nan) = "nan"` has no word of length ≥ 4, hence `∅`. -/
def wordSet (words : String → Finset String) : Option String → Finset String
  | some d => words (lowerStr d)
  | none => ∅

/-- The duplicate-detection signature
`hash(description.lower()) % 10000 + (price // 5000)·1e5 + (area // 10)·1e6`
(`hash(x) if pd.notna(x) else 0`; float `//` is floor division and
`astype(int)` is the identity on its integral result).  Callers guarantee
price and area are present — pandas `astype(int)` raises on `NaN`. -/
def sigOf (pyhash : String → ℤ) (r : CRow) : ℤ :=
  (match r.description with | some d => pyhash (lowerStr d) % 10000 | none => 0)
  + ratFloor (r.price_eur.getD 0 / 5000) * 100000
  + ratFloor (r.area_sqm.getD 0 / 10) * 1000000

/-- The inner duplicate test: both ≥4-letter word sets non-empty and their
Jaccard similarity above 0.8. -/
def isDupPair (words : String → Finset String) (r1 r2 : CRow) : Prop :=
  let w1 := wordSet words r1.description
  let w2 := wordSet words r2.description
  w1.Nonempty ∧ w2.Nonempty ∧ ((w1 ∩ w2).card : ℚ) / ((w1 ∪ w2).card : ℚ) > 8/10

instance (words : String → Finset String) (r1 r2 : CRow) :
    Decidable (isDupPair words r1 r2) := by
  unfold isDupPair; exact inferInstance

/-- All ordered pairs `(x, y)` with `x` strictly before `y` in the list —
the pairs `DataCleaner.remove_duplicates` compares inside a signature group,
in iteration order. -/
def pairsList {α : Type} : List α → List (α × α)
  | [] => []
  | x :: xs => xs.map (fun y => (x, y)) ++ pairsList xs

/-- The set of index labels `remove_duplicates` drops: for every compared
pair with equal signature and Jaccard similarity > 0.8, the larger label. -/
def dupDrops (pyhash : String → ℤ) (words : String → Finset String)
    (df : CFrame) : List ℕ :=
  (pairsList df).filterMap fun (p, q) =>
    if sigOf pyhash p.2 = sigOf pyhash q.2 ∧ isDupPair words p.2 q.2
    then some (max p.1 q.1) else none

inductive CleanError where
  | nanToInt
deriving DecidableEq

/-- `DataCleaner.remove_duplicates`.  pandas `astype(int)` raises when a
price or area is `NaN`, modelled as the `error` branch; otherwise drop every
row whose label is in `dupDrops`. -/
def remove_duplicates (pyhash : String → ℤ) (words : String → Finset String)
    (df : CFrame) : Except CleanError CFrame :=
  if df.all (fun ir => ir.2.price_eur.isSome && ir.2.area_sqm.isSome) then
    .ok (df.filter fun ir => decide (ir.1 ∉ dupDrops pyhash words df))
  else .error .nanToInt

/-- A row's `price_per_sqm` cell.  (`area = 0` would give `±inf` in pandas;
it cannot occur at this pipeline stage and is treated as undefined.) -/
def pricePerSqm (r : CRow) : Option ℚ :=
  match r.price_eur, r.area_sqm with
  | some p, some a => if a = 0 then none else some (p / a)
  | _, _ => none

/-- Linear interpolation of a sorted list at fractional position `h`
(`x_⌊h⌋ + (h − ⌊h⌋)·(x_⌊h⌋₊₁ − x_⌊h⌋)`; at the last position the upper
sample defaults to the lower one). -/
def qinterp (s : List ℚ) (h : ℚ) : ℚ :=
  s.getD (ratFloor h).toNat 0
    + (h - (ratFloor h : ℚ))
      * (s.getD ((ratFloor h).toNat + 1) (s.getD (ratFloor h).toNat 0)
          - s.getD (ratFloor h).toNat 0)

/-- pandas `Series.quantile(q)` on a non-empty sorted list: linear
interpolation at position `q·(n−1)`. -/
def quantileSorted (s : List ℚ) (q : ℚ) : ℚ :=
  qinterp s (q * ((s.length : ℚ) - 1))

/-- pandas `Series.quantile(q)`: `NaN` values are dropped by the caller
(`pricePerSqm` already yields only the defined cells); the quantile of an
empty series is `NaN`. -/
def quantileQ (xs : List ℚ) (q : ℚ) : Option ℚ :=
  if xs.isEmpty then none
  else some (quantileSorted (List.insertionSort (· ≤ ·) xs) q)

/-- The IQR bounds of `DataCleaner.remove_outliers`:
`(Q1 − k·IQR, Q1, Q3, Q3 + k·IQR)`. -/
def outlierBounds (k : ℚ) (xs : List ℚ) : Option (ℚ × ℚ × ℚ × ℚ) :=
  match quantileQ xs (1/4), quantileQ xs (3/4) with
  | some q1, some q3 => some (q1 - k * (q3 - q1), q1, q3, q3 + k * (q3 - q1))
  | _, _ => none

/-- `DataCleaner.remove_outliers(std_mult = k, method = 'delete')` (the
method used by the training pipeline): drop rows whose price-per-m² falls
outside the IQR bounds; rows with an undefined price-per-m² are kept
(`NaN < lower` and `NaN > upper` are both `False`). -/
def remove_outliers (k : ℚ) (df : CFrame) : CFrame :=
  match outlierBounds k (df.filterMap fun ir => pricePerSqm ir.2) with
  | none => df
  | some (lo, _, _, hi) =>
    df.filter fun ir =>
      match pricePerSqm ir.2 with
      | some v => decide (¬(v < lo ∨ v > hi))
      | none => true

/-- `DataCleaner.validate_ranges` with the default windows
`area ∈ [15, 300]`, `price ∈ [10000, 2000000]`; `NaN` cells fail the
comparisons and the row is dropped. -/
def validate_ranges (df : CFrame) : CFrame :=
  df.filter fun (_, r) =>
    match r.area_sqm, r.price_eur with
    | some a, some p => decide (15 ≤ a ∧ a ≤ 300 ∧ 10000 ≤ p ∧ p ≤ 2000000)
    | _, _ => false

/-- `DataCleaner.finalize`: keep rows with `area_sqm > 0` (the recomputed
`price_per_sqm` column and the dropped text columns do not change the rows). -/
def finalize (df : CFrame) : CFrame :=
  df.filter fun (_, r) =>
    match r.area_sqm with
    | some a => decide (0 < a)
    | none => false

/-- The cleaning pipeline of `train_model.clean`, from the impossible-value
filter through range validation and `finalize` (the preceding
`standardize_formats`/`handle_missing` stages touch no field a later stage
reads other than text normalisation, absorbed by the opaque parameters). -/
def cleanPipeline (areaEx : Option String → Option ℚ) (pyhash : String → ℤ)
    (words : String → Finset String) (k : ℚ) (df : CFrame) :
    Except CleanError CFrame :=
  match remove_duplicates pyhash words
      (extract_prices (extract_areas areaEx (filter_location (check_impossible_values df)))) with
  | .error e => .error e
  | .ok d5 => .ok (finalize (validate_ranges (remove_outliers k d5)))

/-! ### app/data/loader.py — cluster id → zone label -/

structure LRow where
  neighborhood_cluster : Option ℚ
  distance_from_center : Option ℚ
deriving DecidableEq

/-- The loader's zone naming (`_load_and_clean`):
`df["neighborhood"] = cluster.apply(lambda c: f"Cluster {int(c)}" if pd.notna(c) else "Unknown")`. -/
def neighborhoodLabel (c : Option ℚ) : String :=
  match c with
  | some v => "Cluster " ++ toString (pyInt v)
  | none => "Unknown"

/-- Modelled from the spec: the mean distance-from-center of one cluster
("compute each cluster's mean distance from a fixed reference point").  No
such ranking exists in the implementation; this definition only serves to
state claim C4 against the loader's naming. -/
def meanDistOfCluster (rows : List LRow) (c : ℤ) : Option ℚ :=
  let ds := rows.filterMap fun r =>
    match r.neighborhood_cluster, r.distance_from_center with
    | some cv, some d => if pyInt cv = c then some d else none
    | _, _ => none
  if ds.isEmpty then none else some (ds.sum / ds.length)

def clusterIds (rows : List LRow) : List ℤ :=
  (rows.filterMap fun r => r.neighborhood_cluster.map pyInt).dedup

/-- Modelled from the spec: the cluster whose mean distance-from-center is
minimal ("rank ascending; the innermost cluster gets the first name"). -/
def minMeanDistCluster (rows : List LRow) : Option ℤ :=
  let cands := (clusterIds rows).filterMap fun c =>
    (meanDistOfCluster rows c).map (fun d => (c, d))
  match cands with
  | [] => none
  | x :: xs => some ((xs.foldl (fun b y => if y.2 < b.2 then y else b) x).1)

/-- The zone name the loader gives to the cluster of minimal mean
distance-from-center. -/
def innermostZoneName (rows : List LRow) : Option String :=
  (minMeanDistCluster rows).map fun c => neighborhoodLabel (some (c : ℚ))

/-! ### ml.py — feature matrix, comparables, valuation -/

/-- A row of the API dataset, with the fields `ml.py` reads.  `features c`
is the raw cell of the `c`-th column of `FEATURE_COLS` (in source order:
area_sqm, floor, bedrooms, bathrooms, has_elevator, has_parking_space,
distance_from_center, total_rooms, neighborhood_cluster,
dist_to_nearest_center); `price`, `sqm`, `beds`, `baths` are non-null in
every loaded dataset (`loader._load_and_clean` drops/fills them). -/
structure MLRow where
  id : String
  price : ℚ
  sqm : ℚ
  beds : ℚ
  baths : ℚ
  latitude : Option ℚ
  longitude : Option ℚ
  features : Fin 10 → Option ℚ

instance : Inhabited MLRow :=
  ⟨{ id := "", price := 0, sqm := 0, beds := 0, baths := 0,
     latitude := none, longitude := none, features := fun _ => none }⟩

/-- The dataset: rows in positional order (the loader resets the index, so
index labels equal positions), plus which of the ten feature columns / the
coordinate columns exist in the frame. -/
structure MLFrame where
  rows : List MLRow
  featPresent : Fin 10 → Bool
  hasCoords : Bool

/-- The non-null cells of a feature column. -/
def colValues (df : MLFrame) (c : Fin 10) : List ℚ :=
  df.rows.filterMap fun r => r.features c

/-- `_build_feature_matrix` over the whole frame: coerce (already done),
fill `NaN` with the column median, absent columns become the constant 0.
A cell stays `NaN` only when the whole column is `NaN` (empty median). -/
def filledFeature (df : MLFrame) (r : MLRow) (c : Fin 10) : Option ℚ :=
  if df.featPresent c then
    match r.features c with
    | some v => some v
    | none => medianQ (colValues df c)
  else some 0

/-- `_build_feature_matrix` over the single-row frame `df.loc[[idx]]` used
by `get_estimate`: the median of a one-cell column is the cell itself, so
the fill leaves the cell unchanged (and an all-`NaN` cell stays `NaN`). -/
def filledFeatureSingle (df : MLFrame) (r : MLRow) (c : Fin 10) : Option ℚ :=
  if df.featPresent c then r.features c else some 0

/-- Fold a NumPy columnwise reduction; `NaN` (`none`) propagates, and the
reduction of an empty column does not arise (`get_comps` resolves a row
first, so the frame is non-empty). -/
def optFold (f : ℚ → ℚ → ℚ) : List (Option ℚ) → Option ℚ
  | [] => none
  | x :: xs =>
    xs.foldl (fun acc y =>
      match acc, y with
      | some a, some b => some (f a b)
      | _, _ => none) x

def colMin (df : MLFrame) (c : Fin 10) : Option ℚ :=
  optFold min (df.rows.map fun r => filledFeature df r c)

def colMax (df : MLFrame) (c : Fin 10) : Option ℚ :=
  optFold max (df.rows.map fun r => filledFeature df r c)

/-- `np.where((max − min) == 0, 1.0, max − min)`: a zero-range column gets
divisor 1; a `NaN` range stays `NaN` (the `==` test is `False` on `NaN`). -/
def colRange (df : MLFrame) (c : Fin 10) : Option ℚ :=
  match colMax df c, colMin df c with
  | some M, some m => if M - m = 0 then some 1 else some (M - m)
  | _, _ => none

/-- One cell of `norm = (matrix - col_min) / col_range`. -/
def normFeature (df : MLFrame) (r : MLRow) (c : Fin 10) : Option ℚ :=
  match filledFeature df r c, colMin df c, colRange df c with
  | some x, some m, some rg => some ((x - m) / rg)
  | _, _, _ => none

/-- Squared Euclidean distance between two normalised rows (`sqrt` is
strictly monotone, so sorting by the square equals sorting by
`np.linalg.norm`); `NaN` propagates. -/
def dist2 (df : MLFrame) (t r : MLRow) : Option ℚ :=
  (List.finRange 10).foldr (fun c acc =>
    match normFeature df r c, normFeature df t c, acc with
    | some a, some b, some s => some ((a - b) ^ 2 + s)
    | _, _, _ => none) (some 0)

/-- The sort key of row `i` when the target sits at position `p`:
finite distances first (`(0, d)`), then the target's `np.inf` (`(1, 0)`),
then `NaN` distances (`(2, 0)`) — exactly NumPy's ascending order. -/
def sortKey (df : MLFrame) (p i : ℕ) : ℕ × ℚ :=
  if i = p then (1, 0)
  else
    match dist2 df (df.rows.getD p default) (df.rows.getD i default) with
    | some d => (0, d)
    | none => (2, 0)

def keyLe (a b : ℕ × ℚ) : Prop := a.1 < b.1 ∨ (a.1 = b.1 ∧ a.2 ≤ b.2)

instance (a b : ℕ × ℚ) : Decidable (keyLe a b) := by
  unfold keyLe; exact inferInstance

instance (k : ℕ → ℕ × ℚ) : DecidableRel (fun i j => keyLe (k i) (k j)) :=
  fun _ _ => inferInstanceAs (Decidable (keyLe _ _))

/-- `np.argsort(dists)`: the row positions ordered by ascending sort key
(stable; ties keep ascending original position, the spec's tie-break). -/
def argsortIdx (df : MLFrame) (p : ℕ) : List ℕ :=
  List.insertionSort (fun i j => keyLe (sortKey df p i) (sortKey df p j))
    (List.range df.rows.length)

/-- `_distance_label` on a finite haversine value (the `None` branch is the
`hasCoords = false` path of the caller). -/
def distLabel (km : ℚ) : String :=
  if km < 1 then "< 1 km"
  else if km < 3 then "1-3 km"
  else if km < 7 then "3-7 km"
  else "> 7 km"

/-- Python `str.capitalize()`: first character upper-cased, the rest
lower-cased (ASCII subset). -/
def pyCapitalize (s : String) : String :=
  match s.toList with
  | [] => s
  | c :: cs => String.mk (c.toUpper :: cs.map Char.toLower)

/-- `_similarity_reason`; `clusterPresent` is whether the
`neighborhood_cluster` column exists (otherwise the defaults `-1`/`-2`
never compare equal), and a `NaN` cluster raises in `int(...)`, caught as
"no phrase". -/
def similarityReason (clusterPresent : Bool) (t c : MLRow) : String :=
  let parts : List String :=
    (if (pyInt t.beds - pyInt c.beds).natAbs = 0 then ["same number of bedrooms"]
     else if (pyInt t.beds - pyInt c.beds).natAbs = 1 then ["similar bedroom count"]
     else [])
    ++
    (let st := if t.sqm = 0 then 1 else t.sqm
     let sc := if c.sqm = 0 then 1 else c.sqm
     if |st - sc| / max st 1 < 1/10 then ["very similar size"]
     else if |st - sc| / max st 1 < 2/10 then ["similar size"]
     else [])
    ++
    (if clusterPresent then
      match t.features 8, c.features 8 with
      | some a, some b => if pyInt a = pyInt b then ["same neighborhood cluster"] else []
      | _, _ => []
     else [])
  pyCapitalize (if parts.isEmpty then "comparable overall features"
                else String.intercalate ", " parts)

structure Comp where
  id : String
  price : ℚ
  sqm : ℚ
  rooms : ℤ
  distance_label : String
  similarity_reason : String
deriving DecidableEq

/-- Build one entry of the comps response.  `hv` is the opaque
`_haversine_km` (transcendental); with the coordinate columns present but a
coordinate `NaN`, the haversine is `NaN` and every band test is `False`,
giving `"> 7 km"`. -/
def mkComp (hv : ℚ → ℚ → ℚ → ℚ → ℚ) (df : MLFrame) (t r : MLRow) : Comp :=
  let dlabel :=
    if df.hasCoords then
      match t.latitude, t.longitude, r.latitude, r.longitude with
      | some a, some b, some c, some d => distLabel (hv a b c d)
      | _, _, _, _ => "> 7 km"
    else "Nearby"
  { id := r.id, price := r.price, sqm := r.sqm,
    rooms := pyInt r.beds + pyInt r.baths,
    distance_label := dlabel,
    similarity_reason := similarityReason (df.featPresent 8) t r }

inductive MLError where
  | notFound
  | modelUnavailable
deriving DecidableEq

/-- `df["id"].astype(str) == str(listing_id)`: position of the first row
whose id equals the queried id. -/
def resolve (rows : List MLRow) (lid : String) : Option ℕ :=
  rows.findIdx? fun r => r.id == lid

/-- The comps list for the resolved target position `p`:
`np.argsort(dists)[:n]` mapped to response entries. -/
def compsOf (hv : ℚ → ℚ → ℚ → ℚ → ℚ) (df : MLFrame) (p n : ℕ) : List Comp :=
  ((argsortIdx df p).take n).map fun i =>
    mkComp hv df (df.rows.getD p default) (df.rows.getD i default)

/-- `ml.get_comps` (`KeyError` when the id does not resolve). -/
def get_comps (hv : ℚ → ℚ → ℚ → ℚ → ℚ) (df : MLFrame) (lid : String) (n : ℕ) :
    Except MLError (List Comp) :=
  match resolve df.rows lid with
  | none => .error .notFound
  | some p => .ok (compsOf hv df p n)

structure EstimateResult where
  estimated_price : ℚ
  range_low : ℚ
  range_high : ℚ
  label : String
deriving DecidableEq

/-- `estimated = float(np.expm1(model.predict(scaled)[0]))` for one row;
`pm` is the opaque composite
`expm1(model.predict(scaler.transform(features))[0])`. -/
def estimatedOf (pm : (Fin 10 → Option ℚ) → ℚ) (df : MLFrame) (t : MLRow) : ℚ :=
  pm (fun c => filledFeatureSingle df t c)

/-- The valuation of a resolved row; `RANGE_BAND = 0.08`,
`OVERPRICED_THRESHOLD = 1.10`, `UNDERPRICED_THRESHOLD = 0.90`. -/
def estimateOf (pm : (Fin 10 → Option ℚ) → ℚ) (df : MLFrame) (t : MLRow) :
    EstimateResult :=
  let estimated := estimatedOf pm df t
  let priceRat := if estimated > 0 then t.price / estimated else 1
  { estimated_price := pyRound2 estimated,
    range_low := pyRound2 (estimated * (1 - 8/100)),
    range_high := pyRound2 (estimated * (1 + 8/100)),
    label :=
      if priceRat > 11/10 then "Overpriced"
      else if priceRat < 9/10 then "Underpriced"
      else "Fair" }

/-- `ml.get_estimate` (`KeyError` when the id does not resolve; the id check
precedes every model/scaler access). -/
def get_estimate (pm : (Fin 10 → Option ℚ) → ℚ) (df : MLFrame) (lid : String) :
    Except MLError EstimateResult :=
  match resolve df.rows lid with
  | none => .error .notFound
  | some p => .ok (estimateOf pm df (df.rows.getD p default))

/-- The estimate endpoint (`app/routers/estimates.py`): a missing model is
reported as 503 `ModelUnavailable` before `get_estimate` runs; a `KeyError`
from `get_estimate` becomes 404 `NotFound`. -/
def estimateEndpoint (pm? : Option ((Fin 10 → Option ℚ) → ℚ)) (df : MLFrame)
    (lid : String) : Except MLError EstimateResult :=
  match pm? with
  | none => .error .modelUnavailable
  | some pm => get_estimate pm df lid

/-! ### Concrete frames used by witnesses and counterexamples -/

deriving instance DecidableEq for Except

def rowA : MLRow where
  id := "0"
  price := 50000
  sqm := 50
  beds := 1
  baths := 1
  latitude := none
  longitude := none
  features := fun _ => some 1

def rowB : MLRow where
  id := "1"
  price := 60000
  sqm := 60
  beds := 2
  baths := 1
  latitude := none
  longitude := none
  features := fun _ => some 2

/-- A two-row dataset (distinct ids, every feature column fully present). -/
def dfC1 : MLFrame where
  rows := [rowA, rowB]
  featPresent := fun _ => true
  hasCoords := false

/-- A haversine stub for witnesses (its value never matters to the claims). -/
def hvZero : ℚ → ℚ → ℚ → ℚ → ℚ := fun _ _ _ _ => 0

def crowW : CRow where
  price_eur := some 50000
  area_sqm := some 80
  bedrooms := some 2
  lat := some (4133/100)
  lng := some (1982/100)
  description := some "x"

def cfW : CFrame := [(0, crowW)]

def lrowC1 : LRow := ⟨some 1, some 1⟩
def lrowC0 : LRow := ⟨some 0, some 1⟩

/-! ## Theorems -/

/-! ### Arithmetic facts about the helpers -/

theorem ratFloor_le (q : ℚ) : (ratFloor q : ℚ) ≤ q := by
  have hd : (0 : ℚ) < (q.den : ℚ) := by exact_mod_cast q.den_pos
  have h : ((q.den : ℤ) * ratFloor q + q.num.fmod q.den) = q.num :=
    Int.fdiv_add_fmod q.num q.den
  have hm : (0 : ℤ) ≤ q.num.fmod q.den :=
    Int.fmod_nonneg' q.num (by exact_mod_cast q.den_pos)
  have hq : ((q.num : ℚ)) = (q.den : ℚ) * (ratFloor q : ℚ) + ((q.num.fmod q.den : ℤ) : ℚ) := by
    exact_mod_cast h.symm
  have hm' : (0 : ℚ) ≤ ((q.num.fmod q.den : ℤ) : ℚ) := by exact_mod_cast hm
  have key : (q * (q.den : ℚ)) = (q.num : ℚ) := Rat.mul_den_eq_num q
  have hmul : (ratFloor q : ℚ) * q.den ≤ q * q.den := by rw [key]; nlinarith
  exact le_of_mul_le_mul_right hmul hd

theorem lt_ratFloor_add_one (q : ℚ) : q < ratFloor q + 1 := by
  have hd : (0 : ℚ) < (q.den : ℚ) := by exact_mod_cast q.den_pos
  have h : ((q.den : ℤ) * ratFloor q + q.num.fmod q.den) = q.num :=
    Int.fdiv_add_fmod q.num q.den
  have hm : q.num.fmod q.den < (q.den : ℤ) :=
    Int.fmod_lt_of_pos q.num (by exact_mod_cast q.den_pos)
  have hq : ((q.num : ℚ)) = (q.den : ℚ) * (ratFloor q : ℚ) + ((q.num.fmod q.den : ℤ) : ℚ) := by
    exact_mod_cast h.symm
  have hm' : ((q.num.fmod q.den : ℤ) : ℚ) < (q.den : ℚ) := by exact_mod_cast hm
  have key : (q * (q.den : ℚ)) = (q.num : ℚ) := Rat.mul_den_eq_num q
  have hmul : q * q.den < ((ratFloor q : ℚ) + 1) * q.den := by rw [key]; nlinarith
  exact lt_of_mul_lt_mul_right hmul hd.le

theorem abs_roundHalfEven_sub_le (q : ℚ) : |(roundHalfEven q : ℚ) - q| ≤ 1/2 := by
  have h1 := ratFloor_le q
  have h2 := lt_ratFloor_add_one q
  unfold roundHalfEven
  split_ifs with hc1 hc2 hc3 <;> rw [abs_le] <;> push_cast <;>
    constructor <;> linarith

theorem abs_pyRound2_sub_le (q : ℚ) : |pyRound2 q - q| ≤ 1/200 := by
  have h := abs_roundHalfEven_sub_le (q * 100)
  unfold pyRound2
  have hsplit : (roundHalfEven (q * 100) : ℚ) / 100 - q
      = ((roundHalfEven (q * 100) : ℚ) - q * 100) / 100 := by ring
  rw [hsplit, abs_div, show |(100 : ℚ)| = 100 by norm_num]
  linarith [h]

theorem ratFloor_intCast (m : ℤ) : ratFloor (m : ℚ) = m := by
  have h1 := ratFloor_le (m : ℚ)
  have h2 := lt_ratFloor_add_one (m : ℚ)
  have h1' : ratFloor (m : ℚ) ≤ m := by exact_mod_cast h1
  have h2' : m < ratFloor (m : ℚ) + 1 := by exact_mod_cast h2
  omega

theorem pyInt_intCast (m : ℤ) : pyInt (m : ℚ) = m := by
  unfold pyInt
  split_ifs with h
  · exact ratFloor_intCast m
  · have : ((-m : ℤ) : ℚ) = -(m : ℚ) := by push_cast; ring
    rw [← this, ratFloor_intCast]
    omega

theorem ratFloor_mono {a b : ℚ} (h : a ≤ b) : ratFloor a ≤ ratFloor b := by
  by_contra hc
  push_neg at hc
  have h1 : (ratFloor b : ℚ) + 1 ≤ (ratFloor a : ℚ) := by exact_mod_cast hc
  have h2 := ratFloor_le a
  have h3 := lt_ratFloor_add_one b
  linarith

theorem ratFloor_nonneg {q : ℚ} (h : 0 ≤ q) : 0 ≤ ratFloor q := by
  have h2 := lt_ratFloor_add_one q
  by_contra hc
  push_neg at hc
  have h3 : ratFloor q + 1 ≤ 0 := by omega
  have h4 : ((ratFloor q : ℚ) + 1) ≤ 0 := by exact_mod_cast h3
  linarith

/-! ### C8 — total-price branch of the price extractor -/

/-- Claim C8: for every description in which the per-m² rate pattern does
not match, `PriceExtractor.extract` parses the last currency-amount
occurrence as the total price, and returns no price whenever that amount is
≤ 100. -/
theorem C8_total_price_last_match (t : String) (v : ℚ)
    (hps : perSqmSearch (pyLower t) = none)
    (hlast : ((findallTotal (pyLower t)).getLast?.bind fun g => pyFloat? (cleanNum g)) = some v) :
    PriceExtractor.extract (some t) =
      if 100 < v then (some v, some "total") else (none, none) := by
  obtain ⟨g, hg, hv⟩ := Option.bind_eq_some.mp hlast
  have hext : PriceExtractor.extract (some t) = totalBranch (pyLower t) := by
    show (match perSqmSearch (pyLower t) with
      | some g =>
        match pyFloat? (cleanNum g) with
        | some v => (some v, some "per_sqm")
        | none => totalBranch (pyLower t)
      | none => totalBranch (pyLower t)) = totalBranch (pyLower t)
    rw [hps]
  rw [hext]
  unfold totalBranch
  rw [hg]
  show (match pyFloat? (cleanNum g) with
    | none => ((none : Option ℚ), (none : Option String))
    | some v => if v > 100 then (some v, some "total") else (none, none)) = _
  rw [hv]

/-- Witness for C8 at a concrete description. -/
theorem C8_total_price_last_match_witness :
    (perSqmSearch (pyLower "First €90 then finally €45 000") = none) ∧
    (((findallTotal (pyLower "First €90 then finally €45 000")).getLast?.bind
        fun g => pyFloat? (cleanNum g)) = some 45000) ∧
    PriceExtractor.extract (some "First €90 then finally €45 000") = (some 45000, some "total") := by
  refine ⟨by decide, by decide, ?_⟩
  rw [C8_total_price_last_match "First €90 then finally €45 000" 45000 (by decide) (by decide)]
  decide

/-! ### C4 — zone naming versus the distance-from-center ranking -/

/-- Counterexample to claim C4: two one-row datasets with identical
distance-from-center profiles, differing only in the arbitrary cluster-id
numbering.  The (trivially) closest cluster is named "Cluster 1" in one and
"Cluster 0" in the other, so the innermost cluster does not always receive a
fixed first zone name. -/
theorem C4_counterexample :
    innermostZoneName [lrowC1] = some "Cluster 1" ∧
    innermostZoneName [lrowC0] = some "Cluster 0" ∧
    innermostZoneName [lrowC1] ≠ innermostZoneName [lrowC0] := by
  refine ⟨by decide, by decide, by decide⟩

/-- Claim C4, amended: the loader derives each zone name directly from the
cluster id (`f"Cluster {int(c)}"`), so the minimal-mean-distance cluster
receives the name of its own id — naming follows the arbitrary cluster-id
numbering, not the distance ranking. -/
theorem C4_zone_name_from_id (rows : List LRow) (c : ℤ)
    (h : minMeanDistCluster rows = some c) :
    innermostZoneName rows = some ("Cluster " ++ toString c) := by
  unfold innermostZoneName
  rw [h]
  simp [neighborhoodLabel, pyInt_intCast]

/-- Witness for the amended C4. -/
theorem C4_zone_name_from_id_witness :
    minMeanDistCluster [lrowC1] = some 1 ∧
    innermostZoneName [lrowC1] = some ("Cluster " ++ toString (1 : ℤ)) :=
  ⟨by decide, C4_zone_name_from_id [lrowC1] 1 (by decide)⟩

/-! ### C2, C3, C10 — valuation band and fairness label -/

theorem estimateOf_label_iff (pm : (Fin 10 → Option ℚ) → ℚ) (df : MLFrame) (t : MLRow)
    (hpos : 0 < estimatedOf pm df t) :
    ((estimateOf pm df t).label = "Overpriced" ↔ 11/10 < t.price / estimatedOf pm df t) ∧
    ((estimateOf pm df t).label = "Underpriced" ↔ t.price / estimatedOf pm df t < 9/10) ∧
    ((estimateOf pm df t).label = "Fair" ↔
      (9/10 ≤ t.price / estimatedOf pm df t ∧ t.price / estimatedOf pm df t ≤ 11/10)) := by
  have hlab : (estimateOf pm df t).label =
      (if t.price / estimatedOf pm df t > 11/10 then "Overpriced"
       else if t.price / estimatedOf pm df t < 9/10 then "Underpriced" else "Fair") := by
    simp only [estimateOf]
    rw [if_pos hpos]
  rw [hlab]
  split_ifs with h1 h2
  · exact ⟨iff_of_true rfl h1,
      iff_of_false (by decide) (by intro h; linarith),
      iff_of_false (by decide) (by rintro ⟨-, hb⟩; linarith)⟩
  · exact ⟨iff_of_false (by decide) h1,
      iff_of_true rfl h2,
      iff_of_false (by decide) (by rintro ⟨ha, -⟩; linarith)⟩
  · exact ⟨iff_of_false (by decide) h1,
      iff_of_false (by decide) h2,
      iff_of_true rfl ⟨le_of_not_lt h2, le_of_not_lt h1⟩⟩

/-- Claim C3: for a resolved listing with positive estimate, the label is
"Overpriced" exactly when `actual/estimate > 1.10`, "Underpriced" exactly
when the quotient is `< 0.90`, and "Fair" otherwise; both boundaries are
strict. -/
theorem C3_label_boundaries (pm : (Fin 10 → Option ℚ) → ℚ) (df : MLFrame)
    (lid : String) (p : ℕ) (t : MLRow)
    (hres : resolve df.rows lid = some p)
    (ht : df.rows.getD p default = t)
    (hpos : 0 < estimatedOf pm df t) :
    ((get_estimate pm df lid).map EstimateResult.label = .ok "Overpriced" ↔
      11/10 < t.price / estimatedOf pm df t) ∧
    ((get_estimate pm df lid).map EstimateResult.label = .ok "Underpriced" ↔
      t.price / estimatedOf pm df t < 9/10) ∧
    ((get_estimate pm df lid).map EstimateResult.label = .ok "Fair" ↔
      (9/10 ≤ t.price / estimatedOf pm df t ∧ t.price / estimatedOf pm df t ≤ 11/10)) := by
  have hok : get_estimate pm df lid = .ok (estimateOf pm df t) := by
    unfold get_estimate
    rw [hres]
    show Except.ok (estimateOf pm df (df.rows.getD p default)) = _
    rw [ht]
  rw [hok]
  simpa only [Except.map, Except.ok.injEq] using estimateOf_label_iff pm df t hpos

/-- Witness for C3: a listing priced at 50000 against an estimate of 100. -/
theorem C3_label_boundaries_witness :
    resolve dfC1.rows "0" = some 0 ∧
    dfC1.rows.getD 0 default = rowA ∧
    (0 : ℚ) < estimatedOf (fun _ => 100) dfC1 rowA ∧
    (((get_estimate (fun _ => 100) dfC1 "0").map EstimateResult.label = .ok "Overpriced" ↔
        11/10 < rowA.price / estimatedOf (fun _ => 100) dfC1 rowA) ∧
     ((get_estimate (fun _ => 100) dfC1 "0").map EstimateResult.label = .ok "Underpriced" ↔
        rowA.price / estimatedOf (fun _ => 100) dfC1 rowA < 9/10) ∧
     ((get_estimate (fun _ => 100) dfC1 "0").map EstimateResult.label = .ok "Fair" ↔
        (9/10 ≤ rowA.price / estimatedOf (fun _ => 100) dfC1 rowA ∧
         rowA.price / estimatedOf (fun _ => 100) dfC1 rowA ≤ 11/10))) :=
  ⟨by decide, rfl, by decide,
    C3_label_boundaries (fun _ => 100) dfC1 "0" 0 rowA (by decide) rfl (by decide)⟩

/-- Claim C10 (implicit): when the inverted estimate is not strictly
positive, the ratio defaults to 1.0 — no division happens — and the label is
"Fair". -/
theorem C10_guarded_division (pm : (Fin 10 → Option ℚ) → ℚ) (df : MLFrame)
    (lid : String) (p : ℕ) (t : MLRow)
    (hres : resolve df.rows lid = some p)
    (ht : df.rows.getD p default = t)
    (hnp : estimatedOf pm df t ≤ 0) :
    (get_estimate pm df lid).map EstimateResult.label = .ok "Fair" := by
  have hok : get_estimate pm df lid = .ok (estimateOf pm df t) := by
    unfold get_estimate
    rw [hres]
    show Except.ok (estimateOf pm df (df.rows.getD p default)) = _
    rw [ht]
  rw [hok]
  simp only [Except.map, Except.ok.injEq]
  simp only [estimateOf]
  rw [if_neg (not_lt.mpr hnp), if_neg (by norm_num), if_neg (by norm_num)]

/-- Witness for C10: a model predicting `expm1(log(1/2)) = -1/2 < 0`. -/
theorem C10_guarded_division_witness :
    resolve dfC1.rows "0" = some 0 ∧
    dfC1.rows.getD 0 default = rowA ∧
    estimatedOf (fun _ => -1/2) dfC1 rowA ≤ 0 ∧
    (get_estimate (fun _ => -1/2) dfC1 "0").map EstimateResult.label = .ok "Fair" :=
  ⟨by decide, rfl, by decide,
    C10_guarded_division (fun _ => -1/2) dfC1 "0" 0 rowA (by decide) rfl (by decide)⟩

/-- Counterexample to claim C2 as stated: a reachable model output
(`expm1(log(1.001)) = 0.001`) makes all three returned values round to 0.00,
so `range_low < estimated_price < range_high` fails. -/
theorem C2_counterexample :
    (get_estimate (fun _ => 1/1000) dfC1 "0").map
      (fun r => decide (r.range_low < r.estimated_price ∧ r.estimated_price < r.range_high))
    = .ok false := by decide

/-- Claim C2, amended: for estimates of at least one currency unit, the
returned band is strictly ordered around the returned estimate and its ends
are within 1% of `estimate × 0.92` and `estimate × 1.08` (the rounding to
two decimals breaks both properties for tiny estimates). -/
theorem C2_confidence_band (pm : (Fin 10 → Option ℚ) → ℚ) (df : MLFrame)
    (lid : String) (p : ℕ) (t : MLRow)
    (hres : resolve df.rows lid = some p)
    (ht : df.rows.getD p default = t)
    (h1 : 1 ≤ estimatedOf pm df t) :
    get_estimate pm df lid = .ok (estimateOf pm df t) ∧
    (estimateOf pm df t).range_low < (estimateOf pm df t).estimated_price ∧
    (estimateOf pm df t).estimated_price < (estimateOf pm df t).range_high ∧
    |(estimateOf pm df t).range_low - 92/100 * estimatedOf pm df t| <
      estimatedOf pm df t / 100 ∧
    |(estimateOf pm df t).range_high - 108/100 * estimatedOf pm df t| <
      estimatedOf pm df t / 100 := by
  have hok : get_estimate pm df lid = .ok (estimateOf pm df t) := by
    unfold get_estimate
    rw [hres]
    show Except.ok (estimateOf pm df (df.rows.getD p default)) = _
    rw [ht]
  have hfl : (estimateOf pm df t).range_low
      = pyRound2 (estimatedOf pm df t * (1 - 8/100)) := rfl
  have hfh : (estimateOf pm df t).range_high
      = pyRound2 (estimatedOf pm df t * (1 + 8/100)) := rfl
  have hfe : (estimateOf pm df t).estimated_price = pyRound2 (estimatedOf pm df t) := rfl
  have b1 := abs_pyRound2_sub_le (estimatedOf pm df t * (1 - 8/100))
  have b2 := abs_pyRound2_sub_le (estimatedOf pm df t * (1 + 8/100))
  have b3 := abs_pyRound2_sub_le (estimatedOf pm df t)
  rw [abs_le] at b1 b2 b3
  refine ⟨hok, ?_, ?_, ?_, ?_⟩
  · rw [hfl, hfe]
    linarith [b1.1, b1.2, b3.1, b3.2]
  · rw [hfh, hfe]
    linarith [b2.1, b2.2, b3.1, b3.2]
  · rw [hfl, show (92 : ℚ)/100 * estimatedOf pm df t
        = estimatedOf pm df t * (1 - 8/100) by ring]
    refine lt_of_le_of_lt (abs_pyRound2_sub_le _) ?_
    linarith
  · rw [hfh, show (108 : ℚ)/100 * estimatedOf pm df t
        = estimatedOf pm df t * (1 + 8/100) by ring]
    refine lt_of_le_of_lt (abs_pyRound2_sub_le _) ?_
    linarith

/-- Witness for the amended C2 at an estimate of 100. -/
theorem C2_confidence_band_witness :
    resolve dfC1.rows "0" = some 0 ∧
    dfC1.rows.getD 0 default = rowA ∧
    (1 : ℚ) ≤ estimatedOf (fun _ => 100) dfC1 rowA ∧
    (get_estimate (fun _ => 100) dfC1 "0" = .ok (estimateOf (fun _ => 100) dfC1 rowA) ∧
     (estimateOf (fun _ => 100) dfC1 rowA).range_low <
       (estimateOf (fun _ => 100) dfC1 rowA).estimated_price ∧
     (estimateOf (fun _ => 100) dfC1 rowA).estimated_price <
       (estimateOf (fun _ => 100) dfC1 rowA).range_high ∧
     |(estimateOf (fun _ => 100) dfC1 rowA).range_low -
        92/100 * estimatedOf (fun _ => 100) dfC1 rowA| <
       estimatedOf (fun _ => 100) dfC1 rowA / 100 ∧
     |(estimateOf (fun _ => 100) dfC1 rowA).range_high -
        108/100 * estimatedOf (fun _ => 100) dfC1 rowA| <
       estimatedOf (fun _ => 100) dfC1 rowA / 100) :=
  ⟨by decide, rfl, by decide,
    C2_confidence_band (fun _ => 100) dfC1 "0" 0 rowA (by decide) rfl (by decide)⟩

/-! ### C9 — error taxonomy -/

theorem resolve_eq_none_iff (rows : List MLRow) (lid : String) :
    resolve rows lid = none ↔ ∀ r ∈ rows, r.id ≠ lid := by
  unfold resolve
  rw [List.findIdx?_eq_none_iff]
  constructor
  · intro h r hr
    have := h r hr
    simpa using this
  · intro h r hr
    simpa using h r hr

/-- Claim C9: `get_comps` and `get_estimate` fail with the NotFound kind
(`KeyError`) exactly when no row's id equals the queried id; the endpoint's
missing-model condition is the distinct ModelUnavailable kind (HTTP 503),
never NotFound. -/
theorem C9_error_taxonomy (hv : ℚ → ℚ → ℚ → ℚ → ℚ) (pm : (Fin 10 → Option ℚ) → ℚ)
    (df : MLFrame) (lid : String) (n : ℕ) :
    ((get_comps hv df lid n = .error .notFound) ↔ ∀ r ∈ df.rows, r.id ≠ lid) ∧
    ((get_estimate pm df lid = .error .notFound) ↔ ∀ r ∈ df.rows, r.id ≠ lid) ∧
    estimateEndpoint none df lid = .error .modelUnavailable ∧
    MLError.modelUnavailable ≠ MLError.notFound := by
  refine ⟨?_, ?_, rfl, by decide⟩
  · unfold get_comps
    cases hr : resolve df.rows lid with
    | none =>
      exact iff_of_true rfl ((resolve_eq_none_iff df.rows lid).mp hr)
    | some p =>
      refine iff_of_false (by simp) ?_
      intro hall
      have : resolve df.rows lid = none := (resolve_eq_none_iff df.rows lid).mpr hall
      rw [hr] at this
      exact Option.noConfusion this
  · unfold get_estimate
    cases hr : resolve df.rows lid with
    | none =>
      exact iff_of_true rfl ((resolve_eq_none_iff df.rows lid).mp hr)
    | some p =>
      refine iff_of_false (by simp) ?_
      intro hall
      have : resolve df.rows lid = none := (resolve_eq_none_iff df.rows lid).mpr hall
      rw [hr] at this
      exact Option.noConfusion this

/-! ### C7 — IQR bound ordering -/

theorem sorted_getD_mono (s : List ℚ) (hs : List.Sorted (· ≤ ·) s) {a b : ℕ}
    (hab : a ≤ b) (hb : b < s.length) : s.getD a 0 ≤ s.getD b 0 := by
  rcases eq_or_lt_of_le hab with rfl | hlt
  · exact le_refl _
  · have ha : a < s.length := lt_trans hlt hb
    rw [List.getD_eq_getElem s 0 ha, List.getD_eq_getElem s 0 hb]
    have := hs.rel_get_of_lt (a := ⟨a, ha⟩) (b := ⟨b, hb⟩) (Fin.mk_lt_mk.mpr hlt)
    simpa using this

theorem getD_default_irrel (s : List ℚ) (d : ℚ) {n : ℕ} (hn : n < s.length) :
    s.getD n d = s.getD n 0 := by
  rw [List.getD_eq_getElem s d hn, List.getD_eq_getElem s 0 hn]

theorem qinterp_mono (s : List ℚ) (hs : List.Sorted (· ≤ ·) s) {h h' : ℚ}
    (h0 : 0 ≤ h) (hhh : h ≤ h') (hub : h' ≤ (s.length : ℚ) - 1) :
    qinterp s h ≤ qinterp s h' := by
  have hf0 : 0 ≤ ratFloor h := ratFloor_nonneg h0
  have hf0' : 0 ≤ ratFloor h' := ratFloor_nonneg (h0.trans hhh)
  have hn1 : 1 ≤ s.length := by
    by_contra hc
    push_neg at hc
    have hz : s.length = 0 := by omega
    rw [hz] at hub
    push_cast at hub
    linarith
  have hi'n : (ratFloor h').toNat < s.length := by
    have hzb : (ratFloor h' : ℚ) ≤ (s.length : ℚ) - 1 := (ratFloor_le h').trans hub
    have hz : ratFloor h' ≤ (s.length : ℤ) - 1 := by exact_mod_cast hzb
    omega
  have hfm : ratFloor h ≤ ratFloor h' := ratFloor_mono hhh
  have hin : (ratFloor h).toNat < s.length := by omega
  have hiq : ((ratFloor h).toNat : ℚ) = (ratFloor h : ℚ) := by
    exact_mod_cast Int.toNat_of_nonneg hf0
  have hiq' : ((ratFloor h').toNat : ℚ) = (ratFloor h' : ℚ) := by
    exact_mod_cast Int.toNat_of_nonneg hf0'
  have hfr0 : 0 ≤ h - (ratFloor h : ℚ) := by linarith [ratFloor_le h]
  have hfr1 : h - (ratFloor h : ℚ) < 1 := by linarith [lt_ratFloor_add_one h]
  have hfr0' : 0 ≤ h' - (ratFloor h' : ℚ) := by linarith [ratFloor_le h']
  have hfr1' : h' - (ratFloor h' : ℚ) < 1 := by linarith [lt_ratFloor_add_one h']
  unfold qinterp
  rcases eq_or_lt_of_le hfm with heq | hlt
  · -- same lower sample: the fraction grows with the position
    have hfr : h' - (ratFloor h' : ℚ) - (h - (ratFloor h : ℚ)) = h' - h := by
      rw [← heq]; ring
    rw [← heq]
    have hx01 : s.getD (ratFloor h).toNat 0
        ≤ s.getD ((ratFloor h).toNat + 1) (s.getD (ratFloor h).toNat 0) := by
      by_cases hc : (ratFloor h).toNat + 1 < s.length
      · rw [getD_default_irrel s _ hc]
        exact sorted_getD_mono s hs (Nat.le_succ _) hc
      · have hge : s.length ≤ (ratFloor h).toNat + 1 := by omega
        rw [List.getD_eq_default s _ hge]
    set x0 := s.getD (ratFloor h).toNat 0
    set x1 := s.getD ((ratFloor h).toNat + 1) x0
    have : (h' - (ratFloor h : ℚ)) * (x1 - x0) - (h - (ratFloor h : ℚ)) * (x1 - x0)
        = (h' - h) * (x1 - x0) := by ring
    nlinarith [mul_nonneg (by linarith : (0:ℚ) ≤ h' - h) (by linarith : (0:ℚ) ≤ x1 - x0)]
  · -- lower sample strictly increases: chain through x1 ≤ y0
    have hstep : (ratFloor h).toNat + 1 ≤ (ratFloor h').toNat := by omega
    have hc1 : (ratFloor h).toNat + 1 < s.length := lt_of_le_of_lt hstep hi'n
    set x0 := s.getD (ratFloor h).toNat 0 with hx0
    have hx1e : s.getD ((ratFloor h).toNat + 1) x0 = s.getD ((ratFloor h).toNat + 1) 0 :=
      getD_default_irrel s _ hc1
    set y0 := s.getD (ratFloor h').toNat 0 with hy0
    have hy01 : y0 ≤ s.getD ((ratFloor h').toNat + 1) y0 := by
      by_cases hc : (ratFloor h').toNat + 1 < s.length
      · rw [getD_default_irrel s _ hc]
        exact sorted_getD_mono s hs (Nat.le_succ _) hc
      · have hge : s.length ≤ (ratFloor h').toNat + 1 := by omega
        rw [List.getD_eq_default s _ hge]
    set y1 := s.getD ((ratFloor h').toNat + 1) y0
    have hx01 : x0 ≤ s.getD ((ratFloor h).toNat + 1) x0 := by
      rw [hx1e]
      exact sorted_getD_mono s hs (Nat.le_succ _) hc1
    have hmid : s.getD ((ratFloor h).toNat + 1) x0 ≤ y0 := by
      rw [hx1e, hy0]
      exact sorted_getD_mono s hs hstep hi'n
    set x1 := s.getD ((ratFloor h).toNat + 1) x0
    have hv1 : x0 + (h - (ratFloor h : ℚ)) * (x1 - x0) ≤ x1 := by
      nlinarith [mul_nonneg (by linarith : (0:ℚ) ≤ 1 - (h - (ratFloor h : ℚ)))
        (by linarith : (0:ℚ) ≤ x1 - x0)]
    have hv2 : y0 ≤ y0 + (h' - (ratFloor h' : ℚ)) * (y1 - y0) := by
      nlinarith [mul_nonneg hfr0' (by linarith : (0:ℚ) ≤ y1 - y0)]
    linarith

theorem quantileSorted_mono (s : List ℚ) (hs : List.Sorted (· ≤ ·) s)
    (hne : s ≠ []) {q q' : ℚ} (h0 : 0 ≤ q) (hqq : q ≤ q') (h1 : q' ≤ 1) :
    quantileSorted s q ≤ quantileSorted s q' := by
  have hn : 1 ≤ s.length := List.length_pos.mpr hne
  have hnn : (0:ℚ) ≤ (s.length : ℚ) - 1 := by
    have : (1:ℚ) ≤ (s.length : ℚ) := by exact_mod_cast hn
    linarith
  exact qinterp_mono s hs (mul_nonneg h0 hnn)
    (mul_le_mul_of_nonneg_right hqq hnn)
    (by calc q' * ((s.length : ℚ) - 1) ≤ 1 * ((s.length : ℚ) - 1) :=
          mul_le_mul_of_nonneg_right h1 hnn
        _ = (s.length : ℚ) - 1 := one_mul _)

/-- Claim C7: for every dataset and every multiplier `k ≥ 0`, the IQR bounds
computed by `remove_outliers` on the price-per-m² distribution satisfy
`lower ≤ Q1 ≤ Q3 ≤ upper`. -/
theorem C7_iqr_bounds (k : ℚ) (df : CFrame) (lo q1 q3 hi : ℚ)
    (hk : 0 ≤ k)
    (hb : outlierBounds k (df.filterMap fun ir => pricePerSqm ir.2)
      = some (lo, q1, q3, hi)) :
    lo ≤ q1 ∧ q1 ≤ q3 ∧ q3 ≤ hi := by
  set xs := df.filterMap fun ir => pricePerSqm ir.2 with hxs
  unfold outlierBounds at hb
  cases hq1 : quantileQ xs (1/4) with
  | none => rw [hq1] at hb; simp at hb
  | some a =>
    cases hq3 : quantileQ xs (3/4) with
    | none => rw [hq1, hq3] at hb; simp at hb
    | some b =>
      rw [hq1, hq3] at hb
      simp only [Option.some.injEq, Prod.mk.injEq] at hb
      obtain ⟨hlo, hq1e, hq3e, hhi⟩ := hb
      unfold quantileQ at hq1 hq3
      by_cases hne : xs.isEmpty
      · rw [if_pos hne] at hq1
        exact absurd hq1 (by simp)
      · rw [if_neg hne] at hq1 hq3
        have hne' : xs ≠ [] := by
          intro hc; rw [hc] at hne; exact hne rfl
        have hsne : List.insertionSort (· ≤ ·) xs ≠ [] := by
          intro hc
          have := List.length_insertionSort (· ≤ ·) xs
          rw [hc] at this
          exact hne' (List.length_eq_zero.mp this.symm)
        have hs := List.sorted_insertionSort (· ≤ ·) xs
        have hab : a ≤ b := by
          injection hq1 with hq1'
          injection hq3 with hq3'
          rw [← hq1', ← hq3']
          exact quantileSorted_mono (List.insertionSort (· ≤ ·) xs) hs hsne
            (by norm_num) (by norm_num) (by norm_num)
        have hkd : 0 ≤ k * (b - a) := mul_nonneg hk (by linarith)
        refine ⟨?_, ?_, ?_⟩
        · rw [← hlo, ← hq1e]; linarith
        · rw [← hq1e, ← hq3e]; exact hab
        · rw [← hq3e, ← hhi]; linarith

/-- Witness for C7 on a one-row frame (`k = 2.5`, the default). -/
theorem C7_iqr_bounds_witness :
    (0 : ℚ) ≤ 5/2 ∧
    outlierBounds (5/2) (cfW.filterMap fun ir => pricePerSqm ir.2)
      = some (625, 625, 625, 625) ∧
    ((625 : ℚ) ≤ 625 ∧ (625 : ℚ) ≤ 625 ∧ (625 : ℚ) ≤ 625) :=
  ⟨by norm_num, by decide,
    C7_iqr_bounds (5/2) cfW 625 625 625 625 (by norm_num) (by decide)⟩

/-! ### C6 — idempotence of the duplicate filter -/

theorem pairsList_mem {α : Type} {l : List α} {a b : α}
    (h : (a, b) ∈ pairsList l) : a ∈ l ∧ b ∈ l := by
  induction l with
  | nil => simp [pairsList] at h
  | cons x xs ih =>
    simp only [pairsList, List.mem_append, List.mem_map] at h
    rcases h with ⟨y, hy, heq⟩ | h
    · obtain ⟨rfl, rfl⟩ := Prod.mk.injEq .. ▸ heq
      exact ⟨List.mem_cons_self _ _, List.mem_cons_of_mem _ hy⟩
    · exact ⟨List.mem_cons_of_mem _ (ih h).1, List.mem_cons_of_mem _ (ih h).2⟩

theorem pairsList_subset_of_sublist {α : Type} {l₁ l₂ : List α}
    (h : l₁.Sublist l₂) : ∀ pq ∈ pairsList l₁, pq ∈ pairsList l₂ := by
  induction h with
  | slnil => intro pq hpq; simp [pairsList] at hpq
  | cons x h ih =>
    intro pq hpq
    simp only [pairsList, List.mem_append]
    exact Or.inr (ih pq hpq)
  | cons₂ x h ih =>
    intro pq hpq
    simp only [pairsList, List.mem_append, List.mem_map] at hpq ⊢
    rcases hpq with ⟨y, hy, heq⟩ | hpq
    · exact Or.inl ⟨y, h.subset hy, heq⟩
    · exact Or.inr (ih pq hpq)

/-- Claim C6: the duplicate filter is idempotent — a second run of
`remove_duplicates` on its own output removes no further rows (indeed
returns the output unchanged). -/
theorem C6_dedup_idempotent (pyhash : String → ℤ) (words : String → Finset String)
    (df out : CFrame) (h : remove_duplicates pyhash words df = .ok out) :
    remove_duplicates pyhash words out = .ok out := by
  unfold remove_duplicates at h ⊢
  by_cases hall : df.all (fun ir => ir.2.price_eur.isSome && ir.2.area_sqm.isSome)
  case neg => rw [if_neg hall] at h; exact absurd h (by simp)
  case pos =>
    rw [if_pos hall] at h
    injection h with hout
    have hsub : out.Sublist df := by
      rw [← hout]; exact List.filter_sublist df
    have hall2 : out.all (fun ir => ir.2.price_eur.isSome && ir.2.area_sqm.isSome) = true := by
      rw [List.all_eq_true] at hall ⊢
      intro x hx
      exact hall x (hsub.subset hx)
    rw [if_pos hall2]
    congr 1
    rw [List.filter_eq_self]
    intro a ha
    rw [decide_eq_true_eq]
    intro hmem
    unfold dupDrops at hmem
    rw [List.mem_filterMap] at hmem
    obtain ⟨⟨p, q⟩, hpq, hcond⟩ := hmem
    have hcond' : (if sigOf pyhash p.2 = sigOf pyhash q.2 ∧ isDupPair words p.2 q.2
        then some (max p.1 q.1) else none) = some a.1 := hcond
    by_cases hc : sigOf pyhash p.2 = sigOf pyhash q.2 ∧ isDupPair words p.2 q.2
    case neg => rw [if_neg hc] at hcond'; exact Option.noConfusion hcond'
    case pos =>
      have hpq_mem := pairsList_mem hpq
      have hpq_df : (p, q) ∈ pairsList df := pairsList_subset_of_sublist hsub _ hpq
      have hdrop : max p.1 q.1 ∈ dupDrops pyhash words df := by
        unfold dupDrops
        rw [List.mem_filterMap]
        refine ⟨(p, q), hpq_df, ?_⟩
        show (if sigOf pyhash p.2 = sigOf pyhash q.2 ∧ isDupPair words p.2 q.2
          then some (max p.1 q.1) else none) = some (max p.1 q.1)
        rw [if_pos hc]
      have hp_out : p ∈ out := hpq_mem.1
      have hq_out : q ∈ out := hpq_mem.2
      rw [← hout, List.mem_filter] at hp_out hq_out
      have hp_not : p.1 ∉ dupDrops pyhash words df := by
        have := hp_out.2
        rwa [decide_eq_true_eq] at this
      have hq_not : q.1 ∉ dupDrops pyhash words df := by
        have := hq_out.2
        rwa [decide_eq_true_eq] at this
      rcases max_choice p.1 q.1 with hm | hm
      · exact hp_not (hm ▸ hdrop)
      · exact hq_not (hm ▸ hdrop)

/-- A frame with a genuine duplicate pair (labels 0 and 1 hold the same
row), dropped on the first pass. -/
def cfDup : CFrame := [(0, crowW), (1, crowW)]

/-- Witness for C6: the first run drops the duplicate, the second run (by
the theorem) returns its input unchanged. -/
theorem C6_dedup_idempotent_witness :
    remove_duplicates (fun _ => 0) (fun _ => {"aaaa"}) cfDup = .ok [(0, crowW)] ∧
    remove_duplicates (fun _ => 0) (fun _ => {"aaaa"}) [(0, crowW)] = .ok [(0, crowW)] :=
  ⟨by decide,
    C6_dedup_idempotent (fun _ => 0) (fun _ => {"aaaa"}) cfDup [(0, crowW)] (by decide)⟩

/-! ### C5 — positivity after the cleaning pipeline -/

/-- Claim C5: every row that survives the full cleaning pipeline
(impossible-value filter through range validation and `finalize`) has
`price > 0` and `area > 0` — range validation enforces
`price ∈ [10000, 2·10⁶]` and `area ∈ [15, 300]`, and the later stage only
filters further. -/
theorem C5_pipeline_positive (areaEx : Option String → Option ℚ)
    (pyhash : String → ℤ) (words : String → Finset String) (k : ℚ)
    (df out : CFrame) (i : ℕ) (r : CRow)
    (hpipe : cleanPipeline areaEx pyhash words k df = .ok out)
    (hmem : (i, r) ∈ out) :
    (∃ p, r.price_eur = some p ∧ 0 < p) ∧ (∃ a, r.area_sqm = some a ∧ 0 < a) := by
  unfold cleanPipeline at hpipe
  cases hrd : remove_duplicates pyhash words
      (extract_prices (extract_areas areaEx (filter_location (check_impossible_values df)))) with
  | error e => rw [hrd] at hpipe; exact absurd hpipe (by simp)
  | ok d5 =>
    rw [hrd] at hpipe
    injection hpipe with hout
    rw [← hout] at hmem
    unfold finalize at hmem
    rw [List.mem_filter] at hmem
    have hvr := hmem.1
    unfold validate_ranges at hvr
    rw [List.mem_filter] at hvr
    have hpred : (match r.area_sqm, r.price_eur with
      | some a, some p => decide (15 ≤ a ∧ a ≤ 300 ∧ 10000 ≤ p ∧ p ≤ 2000000)
      | _, _ => false) = true := hvr.2
    cases ha : r.area_sqm with
    | none => rw [ha] at hpred; exact absurd hpred (by simp)
    | some a =>
      cases hp : r.price_eur with
      | none => rw [ha, hp] at hpred; exact absurd hpred (by simp)
      | some p =>
        rw [ha, hp] at hpred
        have hb : 15 ≤ a ∧ a ≤ 300 ∧ 10000 ≤ p ∧ p ≤ 2000000 := by
          have : decide (15 ≤ a ∧ a ≤ 300 ∧ 10000 ≤ p ∧ p ≤ 2000000) = true := hpred
          exact of_decide_eq_true this
        exact ⟨⟨p, rfl, by linarith [hb.2.2.1]⟩, ⟨a, rfl, by linarith [hb.1]⟩⟩

/-- Witness for C5: a one-row frame passes the whole pipeline untouched. -/
theorem C5_pipeline_positive_witness :
    cleanPipeline (fun _ => none) (fun _ => 0) (fun _ => ∅) (5/2) cfW = .ok cfW ∧
    (0, crowW) ∈ cfW ∧
    ((∃ p, crowW.price_eur = some p ∧ 0 < p) ∧ (∃ a, crowW.area_sqm = some a ∧ 0 < a)) :=
  ⟨by decide, by decide,
    C5_pipeline_positive (fun _ => none) (fun _ => 0) (fun _ => ∅) (5/2) cfW cfW 0 crowW
      (by decide) (by decide)⟩

/-! ### C1 — comps count, no duplicates, self-exclusion -/

theorem keyLe_total (a b : ℕ × ℚ) : keyLe a b ∨ keyLe b a := by
  unfold keyLe
  rcases lt_trichotomy a.1 b.1 with h | h | h
  · exact Or.inl (Or.inl h)
  · rcases le_total a.2 b.2 with h2 | h2
    · exact Or.inl (Or.inr ⟨h, h2⟩)
    · exact Or.inr (Or.inr ⟨h.symm, h2⟩)
  · exact Or.inr (Or.inl h)

theorem keyLe_trans (a b c : ℕ × ℚ) (h1 : keyLe a b) (h2 : keyLe b c) : keyLe a c := by
  unfold keyLe at *
  rcases h1 with h1 | ⟨h1e, h1le⟩ <;> rcases h2 with h2 | ⟨h2e, h2le⟩
  · exact Or.inl (h1.trans h2)
  · exact Or.inl (h2e ▸ h1)
  · exact Or.inl (h1e ▸ h2)
  · exact Or.inr ⟨h1e.trans h2e, h1le.trans h2le⟩

theorem argsortIdx_perm (df : MLFrame) (p : ℕ) :
    (argsortIdx df p).Perm (List.range df.rows.length) :=
  List.perm_insertionSort _ _

theorem argsortIdx_length (df : MLFrame) (p : ℕ) :
    (argsortIdx df p).length = df.rows.length := by
  rw [(argsortIdx_perm df p).length_eq, List.length_range]

theorem argsortIdx_nodup (df : MLFrame) (p : ℕ) : (argsortIdx df p).Nodup :=
  (argsortIdx_perm df p).symm.nodup (List.nodup_range _)

theorem argsortIdx_sorted (df : MLFrame) (p : ℕ) :
    List.Sorted (fun i j => keyLe (sortKey df p i) (sortKey df p j)) (argsortIdx df p) := by
  haveI : IsTotal ℕ (fun i j => keyLe (sortKey df p i) (sortKey df p j)) :=
    ⟨fun i j => keyLe_total _ _⟩
  haveI : IsTrans ℕ (fun i j => keyLe (sortKey df p i) (sortKey df p j)) :=
    ⟨fun i j l => keyLe_trans _ _ _⟩
  exact List.sorted_insertionSort _ _

theorem medianQ_isSome {xs : List ℚ} (h : xs ≠ []) : (medianQ xs).isSome = true := by
  have hlen : ¬((List.insertionSort (· ≤ ·) xs).length = 0) := by
    rw [List.length_insertionSort]
    simpa using (List.length_pos.mpr h).ne'
  simp only [medianQ]
  rw [if_neg hlen]
  split_ifs <;> simp

theorem filledFeature_isSome (df : MLFrame)
    (hnd : ∀ c : Fin 10, df.featPresent c = true → colValues df c ≠ [])
    (r : MLRow) (c : Fin 10) : (filledFeature df r c).isSome = true := by
  unfold filledFeature
  split_ifs with hp
  · cases hrc : r.features c with
    | some v => simp
    | none => exact medianQ_isSome (hnd c hp)
  · simp

theorem optFold_go_isSome (f : ℚ → ℚ → ℚ) (a : ℚ) (ys : List (Option ℚ))
    (h : ∀ x ∈ ys, x.isSome = true) :
    (ys.foldl (fun acc y =>
      match acc, y with
      | some a, some b => some (f a b)
      | _, _ => none) (some a)).isSome = true := by
  induction ys generalizing a with
  | nil => simp
  | cons y ys ih =>
    obtain ⟨b, rfl⟩ := Option.isSome_iff_exists.mp (h y (by simp))
    simp only [List.foldl_cons]
    exact ih (f a b) (fun x hx => h x (by simp [hx]))

theorem optFold_isSome (f : ℚ → ℚ → ℚ) (l : List (Option ℚ)) (hne : l ≠ [])
    (h : ∀ x ∈ l, x.isSome = true) : (optFold f l).isSome = true := by
  cases l with
  | nil => exact absurd rfl hne
  | cons x xs =>
    obtain ⟨a, rfl⟩ := Option.isSome_iff_exists.mp (h x (by simp))
    unfold optFold
    exact optFold_go_isSome f a xs (fun z hz => h z (by simp [hz]))

theorem colMin_isSome (df : MLFrame)
    (hnd : ∀ c : Fin 10, df.featPresent c = true → colValues df c ≠ [])
    (hrows : df.rows ≠ []) (c : Fin 10) : (colMin df c).isSome = true := by
  unfold colMin
  apply optFold_isSome
  · simpa using hrows
  · intro x hx
    obtain ⟨r, -, rfl⟩ := List.mem_map.mp hx
    exact filledFeature_isSome df hnd r c

theorem colMax_isSome (df : MLFrame)
    (hnd : ∀ c : Fin 10, df.featPresent c = true → colValues df c ≠ [])
    (hrows : df.rows ≠ []) (c : Fin 10) : (colMax df c).isSome = true := by
  unfold colMax
  apply optFold_isSome
  · simpa using hrows
  · intro x hx
    obtain ⟨r, -, rfl⟩ := List.mem_map.mp hx
    exact filledFeature_isSome df hnd r c

theorem colRange_isSome (df : MLFrame)
    (hnd : ∀ c : Fin 10, df.featPresent c = true → colValues df c ≠ [])
    (hrows : df.rows ≠ []) (c : Fin 10) : (colRange df c).isSome = true := by
  obtain ⟨M, hM⟩ := Option.isSome_iff_exists.mp (colMax_isSome df hnd hrows c)
  obtain ⟨m, hm⟩ := Option.isSome_iff_exists.mp (colMin_isSome df hnd hrows c)
  unfold colRange
  rw [hM, hm]
  show (if M - m = 0 then (some 1 : Option ℚ) else some (M - m)).isSome = true
  split_ifs <;> simp

theorem normFeature_isSome (df : MLFrame)
    (hnd : ∀ c : Fin 10, df.featPresent c = true → colValues df c ≠ [])
    (hrows : df.rows ≠ []) (r : MLRow) (c : Fin 10) :
    (normFeature df r c).isSome = true := by
  obtain ⟨x, hx⟩ := Option.isSome_iff_exists.mp (filledFeature_isSome df hnd r c)
  obtain ⟨m, hm⟩ := Option.isSome_iff_exists.mp (colMin_isSome df hnd hrows c)
  obtain ⟨rg, hrg⟩ := Option.isSome_iff_exists.mp (colRange_isSome df hnd hrows c)
  unfold normFeature
  rw [hx, hm, hrg]
  simp

theorem dist2_isSome (df : MLFrame)
    (hnd : ∀ c : Fin 10, df.featPresent c = true → colValues df c ≠ [])
    (hrows : df.rows ≠ []) (t r : MLRow) : (dist2 df t r).isSome = true := by
  unfold dist2
  have hgen : ∀ cs : List (Fin 10),
      ((cs.foldr (fun c acc =>
        match normFeature df r c, normFeature df t c, acc with
        | some a, some b, some s => some ((a - b) ^ 2 + s)
        | _, _, _ => none) (some 0)).isSome = true) := by
    intro cs
    induction cs with
    | nil => simp
    | cons c cs ih =>
      obtain ⟨a, hc1⟩ := Option.isSome_iff_exists.mp (normFeature_isSome df hnd hrows r c)
      obtain ⟨b, hc2⟩ := Option.isSome_iff_exists.mp (normFeature_isSome df hnd hrows t c)
      obtain ⟨s, hc3⟩ := Option.isSome_iff_exists.mp ih
      simp only [List.foldr_cons]
      rw [hc1, hc2, hc3]
      simp
  exact hgen (List.finRange 10)

theorem resolve_some (rows : List MLRow) (lid : String) (p : ℕ)
    (h : resolve rows lid = some p) :
    p < rows.length ∧ (rows.getD p default).id = lid := by
  unfold resolve at h
  rw [List.findIdx?_eq_some_iff_findIdx_eq] at h
  obtain ⟨hlt, hfi⟩ := h
  refine ⟨hlt, ?_⟩
  have hw : rows.findIdx (fun r => r.id == lid) < rows.length := by
    rw [hfi]; exact hlt
  have hpred := List.findIdx_getElem (w := hw)
  simp only [hfi] at hpred
  rw [List.getD_eq_getElem _ _ hlt]
  exact eq_of_beq hpred

theorem mkComp_id (hv : ℚ → ℚ → ℚ → ℚ → ℚ) (df : MLFrame) (t r : MLRow) :
    (mkComp hv df t r).id = r.id := rfl

theorem compsOf_map_id (hv : ℚ → ℚ → ℚ → ℚ → ℚ) (df : MLFrame) (p n : ℕ) :
    (compsOf hv df p n).map Comp.id
      = ((argsortIdx df p).take n).map (fun i => (df.rows.getD i default).id) := by
  unfold compsOf
  rw [List.map_map]
  rfl

theorem rows_id_injective_on (df : MLFrame)
    (hids : (df.rows.map MLRow.id).Nodup) {i j : ℕ}
    (hi : i < df.rows.length) (hj : j < df.rows.length)
    (h : (df.rows.getD i default).id = (df.rows.getD j default).id) : i = j := by
  have hinj := List.nodup_iff_injective_get.mp hids
  have hlen : (df.rows.map MLRow.id).length = df.rows.length := List.length_map _ _
  have h1 : (df.rows.map MLRow.id).get ⟨i, by omega⟩
      = (df.rows.map MLRow.id).get ⟨j, by omega⟩ := by
    rw [List.get_map, List.get_map]
    rw [List.getD_eq_getElem _ _ hi, List.getD_eq_getElem _ _ hj] at h
    simpa using h
  exact congrArg Fin.val (hinj h1)

theorem mem_take_lt_length (df : MLFrame) (p n : ℕ) {i : ℕ}
    (hi : i ∈ (argsortIdx df p).take n) : i < df.rows.length := by
  have h1 : i ∈ argsortIdx df p := List.take_subset _ _ hi
  have h2 : i ∈ List.range df.rows.length := (argsortIdx_perm df p).subset h1
  exact List.mem_range.mp h2

theorem self_not_in_take (df : MLFrame) (p n : ℕ)
    (hnd : ∀ c : Fin 10, df.featPresent c = true → colValues df c ≠ [])
    (hplen : p < df.rows.length) (hn : n < df.rows.length) :
    p ∉ (argsortIdx df p).take n := by
  intro hmem
  have hrows : df.rows ≠ [] := by
    intro hc
    rw [hc] at hplen
    simp at hplen
  have hsorted := argsortIdx_sorted df p
  have hlen : (argsortIdx df p).length = df.rows.length := argsortIdx_length df p
  have hdrop_ne : (argsortIdx df p).drop n ≠ [] := by
    intro hc
    rw [List.drop_eq_nil_iff] at hc
    omega
  have hy_mem : ((argsortIdx df p).drop n).head hdrop_ne ∈ (argsortIdx df p).drop n :=
    List.head_mem hdrop_ne
  set y := ((argsortIdx df p).drop n).head hdrop_ne with hy
  have hpw : List.Pairwise (fun i j => keyLe (sortKey df p i) (sortKey df p j))
      ((argsortIdx df p).take n ++ (argsortIdx df p).drop n) := by
    rw [List.take_append_drop]
    exact hsorted
  have hrel := (List.pairwise_append.mp hpw).2.2 p hmem y hy_mem
  have hnd_l : ((argsortIdx df p).take n ++ (argsortIdx df p).drop n).Nodup := by
    rw [List.take_append_drop]
    exact argsortIdx_nodup df p
  have hynp : y ≠ p := by
    intro hc
    exact (List.nodup_append.mp hnd_l).2.2 hmem (hc ▸ hy_mem)
  have hkp : sortKey df p p = (1, 0) := by
    unfold sortKey
    rw [if_pos rfl]
  have hky : ∃ d, sortKey df p y = (0, d) := by
    obtain ⟨d, hd⟩ := Option.isSome_iff_exists.mp
      (dist2_isSome df hnd hrows (df.rows.getD p default) (df.rows.getD y default))
    refine ⟨d, ?_⟩
    unfold sortKey
    rw [if_neg hynp, hd]
  obtain ⟨d, hkyd⟩ := hky
  rw [hkp, hkyd] at hrel
  simp [keyLe] at hrel

/-- Counterexample to claim C1 as stated: on a two-row dataset a request for
`n = 2` comps returns both rows — including the target itself — because
`np.argsort(dists)[:n]` keeps the target's `inf` entry whenever
`n ≥ dataset_size`.  The claim demands `min(n, dataset_size − 1) = 1` comps
and no self id. -/
theorem C1_counterexample :
    (get_comps hvZero dfC1 "0" 2).map (fun l => (l.length, l.map Comp.id))
      = .ok (2, ["1", "0"]) ∧
    ¬ ((2 : ℕ) = min 2 (dfC1.rows.length - 1) ∧ "0" ∉ ["1", "0"]) :=
  ⟨by decide, by decide⟩

/-- Claim C1, amended: on a dataset with pairwise-distinct ids where every
present feature column has at least one non-missing value, `get_comps` for a
resolved target returns exactly `min(n, dataset_size)` comps with no
duplicate ids, and the target's own id is excluded whenever
`n < dataset_size` (for `n < dataset_size` the count equals the claimed
`min(n, dataset_size − 1) = n`; for `n ≥ dataset_size` the code returns all
rows, target included). -/
theorem C1_comps_properties (hv : ℚ → ℚ → ℚ → ℚ → ℚ) (df : MLFrame)
    (lid : String) (n p : ℕ)
    (hres : resolve df.rows lid = some p)
    (hids : (df.rows.map MLRow.id).Nodup)
    (hnd : ∀ c : Fin 10, df.featPresent c = true → colValues df c ≠ []) :
    get_comps hv df lid n = .ok (compsOf hv df p n) ∧
    (compsOf hv df p n).length = min n df.rows.length ∧
    ((compsOf hv df p n).map Comp.id).Nodup ∧
    (n < df.rows.length → lid ∉ (compsOf hv df p n).map Comp.id) := by
  obtain ⟨hplen, hpid⟩ := resolve_some df.rows lid p hres
  refine ⟨?_, ?_, ?_, ?_⟩
  · unfold get_comps
    rw [hres]
  · unfold compsOf
    rw [List.length_map, List.length_take, argsortIdx_length]
  · rw [compsOf_map_id]
    refine List.Nodup.map_on ?_
      (List.Nodup.sublist (List.take_sublist _ _) (argsortIdx_nodup df p))
    intro i hi j hj hij
    exact rows_id_injective_on df hids (mem_take_lt_length df p n hi)
      (mem_take_lt_length df p n hj) hij
  · intro hn hlid
    rw [compsOf_map_id, List.mem_map] at hlid
    obtain ⟨i, hi_take, hi_id⟩ := hlid
    have hip : i = p :=
      rows_id_injective_on df hids (mem_take_lt_length df p n hi_take) hplen
        (hi_id.trans hpid.symm)
    subst hip
    exact self_not_in_take df i n hnd hplen hn hi_take

/-- Witness for the amended C1 on a two-row dataset with `n = 1`. -/
theorem C1_comps_properties_witness :
    resolve dfC1.rows "0" = some 0 ∧
    (dfC1.rows.map MLRow.id).Nodup ∧
    (∀ c : Fin 10, dfC1.featPresent c = true → colValues dfC1 c ≠ []) ∧
    (get_comps hvZero dfC1 "0" 1 = .ok (compsOf hvZero dfC1 0 1) ∧
     (compsOf hvZero dfC1 0 1).length = min 1 dfC1.rows.length ∧
     ((compsOf hvZero dfC1 0 1).map Comp.id).Nodup ∧
     (1 < dfC1.rows.length → "0" ∉ (compsOf hvZero dfC1 0 1).map Comp.id)) :=
  ⟨by decide, by decide, by decide,
    C1_comps_properties hvZero dfC1 "0" 1 0 (by decide) (by decide) (by decide)⟩
